import Mathlib

/-!
Verification of the `rename-image-files` repository.

This file gives a shallow embedding, in Lean 4, of the parts of the
repository that the specification's claims are about:

* `utils.py` — `sanitize_filename`, `get_filename_date`, `read_exif_date`,
  `apply_case_style`;
* `rename_image_files.py` — `process_filename`, `get_image_date`, and the
  naming/renaming tail of `process_image`;
* `cli.py` — the retry-with-length-guard loop, the rename block of `main`,
  and `scan_directory`;
* `list_files.py` — `iter_image_files` (directory case);
* `rate_limiter.py` — the `RateLimiter` state machine.

Python strings are embedded as `List Char`.  Python's Unicode library
functions (`unicodedata.normalize`, combining-class lookup) cannot be
embedded in full; `sanitize_filename` is therefore parameterized over a
`UnicodeModel` bundling them, and theorems either hold for every model
(so they hold whatever the library does) or are instantiated at
`asciiModel`, which is a correct model of the library on ASCII text
(NFC and NFKD are the identity on ASCII strings and no ASCII character
is combining).  Character-class predicates (`\s`, `\w`, `str.lower`,
`str.isupper`) are modelled on the ASCII range, which covers every
concrete input appearing in the theorems below.
-/

namespace RenameImageFiles

/-- Models the regex character class `\s` (and `str.strip`/`str.isspace`)
on the ASCII range: space, tab, newline, carriage return, vertical tab,
form feed. -/
def pySpace (c : Char) : Bool :=
  c = ' ' || c = '\t' || c = '\n' || c = '\x0d' || c = '\x0b' || c = '\x0c'

/-- Models the regex character class `\w` on the ASCII range:
letters, digits and the underscore. -/
def pyWordChar (c : Char) : Bool :=
  c.isAlpha || c.isDigit || c = '_'

/-- Models Python `str.lower` on the ASCII range: `A`–`Z` map to
`a`–`z`, everything else is unchanged. -/
def pyToLower (c : Char) : Char :=
  if 65 ≤ c.toNat ∧ c.toNat ≤ 90 then Char.ofNat (c.toNat + 32) else c

/-- Models Python `str.upper` on the ASCII range. -/
def pyToUpper (c : Char) : Char :=
  if 97 ≤ c.toNat ∧ c.toNat ≤ 122 then Char.ofNat (c.toNat - 32) else c

/-- Models Python `str.isupper` for a single character on the ASCII range. -/
def pyIsUpper (c : Char) : Bool :=
  65 ≤ c.toNat && c.toNat ≤ 90

/-- Models Python `str.isalpha` for a single character on the ASCII range. -/
def pyIsAlpha (c : Char) : Bool :=
  (65 ≤ c.toNat && c.toNat ≤ 90) || (97 ≤ c.toNat && c.toNat ≤ 122)

/-- Models Python `str.lower` applied to a whole string. -/
def pyLowerStr (l : List Char) : List Char :=
  l.map pyToLower

/-- The dash-like characters of `utils.py` line 113: the regex range
`[‐-―]`. -/
def isDashLike (c : Char) : Bool :=
  0x2010 ≤ c.toNat && c.toNat ≤ 0x2015

/-- Step of `re.sub(r"[‐-―]", "-", text)`: normalize one
dash-like character to a plain hyphen. -/
def normDash (c : Char) : Char :=
  if isDashLike c then '-' else c

/-- The hyphen test used by `re.sub(r"-+", "-", text)` and
`str.strip("-")`. -/
def isHyphenB (c : Char) : Bool :=
  c = '-'

/-- The characters kept by `re.sub(r"[^\w\s-]", "", text)`:
word characters, whitespace, and the hyphen. -/
def keepPunct (c : Char) : Bool :=
  pyWordChar c || pySpace c || c = '-'

/-- Strip characters satisfying `p` from both ends of a list; models
Python `str.strip()` (with `p = pySpace`) and `str.strip("-")`
(with `p = (· = '-')`). -/
def stripBoth (p : Char → Bool) (l : List Char) : List Char :=
  ((l.dropWhile p).reverse.dropWhile p).reverse

/-- Models Python `str.strip()` with no argument. -/
def pyStrip (l : List Char) : List Char :=
  stripBoth pySpace l

/-- Worker for `collapseRuns`.  The flag records whether the scanner is
inside a run of characters satisfying `p` whose replacement `r` has
already been emitted. -/
def collapseRunsAux (p : Char → Bool) (r : Char) : Bool → List Char → List Char
  | _, [] => []
  | true, c :: cs =>
    if p c then collapseRunsAux p r true cs
    else c :: collapseRunsAux p r false cs
  | false, c :: cs =>
    if p c then r :: collapseRunsAux p r true cs
    else c :: collapseRunsAux p r false cs

/-- Replace every maximal run of characters satisfying `p` by the single
character `r`; models `re.sub(p+, r, text)` as used in `utils.py` for
`re.sub(r"\s+", " ", ...)`, `re.sub(r"\s+", "-", ...)` and
`re.sub(r"-+", "-", ...)`. -/
def collapseRuns (p : Char → Bool) (r : Char) (l : List Char) : List Char :=
  collapseRunsAux p r false l

/-- The Unicode operations `sanitize_filename` uses through
`unicodedata`: NFC normalization, NFKD normalization, and the
combining-character test.  They are kept abstract because the full
Unicode tables cannot be embedded. -/
structure UnicodeModel where
  nfc : List Char → List Char
  nfkd : List Char → List Char
  combining : Char → Bool

/-- The correct instantiation of `UnicodeModel` for ASCII text: NFC and
NFKD are the identity on ASCII strings and no ASCII character is a
combining character. -/
def asciiModel : UnicodeModel :=
  ⟨id, id, fun _ => false⟩

/-- Case step of `sanitize_filename` (utils.py lines 95-96):
lowercase unless uppercase is allowed. -/
def stageCase (allow_uppercase : Bool) (l : List Char) : List Char :=
  if allow_uppercase then l else l.map pyToLower

/-- Normalization step of `sanitize_filename` (utils.py lines 98-104):
NFC when accents are kept, otherwise NFKD followed by removal of
combining characters. -/
def stageNorm (U : UnicodeModel) (allow_accents require_ascii : Bool) (l : List Char) : List Char :=
  if allow_accents && !require_ascii then U.nfc l
  else (U.nfkd l).filter (fun c => !U.combining c)

/-- ASCII step of `sanitize_filename` (utils.py lines 107-108):
`text.encode("ascii", "ignore").decode()` drops all code points ≥ 128. -/
def stageAscii (require_ascii : Bool) (l : List Char) : List Char :=
  if require_ascii then l.filter (fun c => decide (c.toNat < 128)) else l

/-- Punctuation step of `sanitize_filename` (utils.py lines 111-117):
normalize dash-like characters to hyphens, remove everything outside
`[\w\s-]`, and collapse whitespace runs to one space. -/
def stagePunct (allow_punctuation : Bool) (l : List Char) : List Char :=
  if allow_punctuation then l
  else collapseRuns pySpace ' ' ((l.map normDash).filter keepPunct)

/-- Space step of `sanitize_filename` (utils.py lines 120-121):
convert whitespace runs to a single hyphen. -/
def stageSpace (allow_spaces : Bool) (l : List Char) : List Char :=
  if allow_spaces then l else collapseRuns pySpace '-' l

/-- The sanitizer pipeline of `utils.py` `sanitize_filename` up to (and
not including) the final hyphen collapsing and stripping. -/
def preSanitize (U : UnicodeModel)
    (allow_accents allow_punctuation allow_spaces allow_uppercase require_ascii : Bool)
    (text : List Char) : List Char :=
  stageSpace allow_spaces
    (stagePunct allow_punctuation
      (stageAscii require_ascii
        (stageNorm U allow_accents require_ascii
          (stageCase allow_uppercase
            (pyStrip text)))))

/-- Embedding of `utils.py` `sanitize_filename` (lines 67-128): strip,
case step, normalization step, ASCII step, punctuation step, space step,
collapse hyphen runs, strip hyphens from the ends. -/
def sanitize_filename (U : UnicodeModel)
    (allow_accents allow_punctuation allow_spaces allow_uppercase require_ascii : Bool)
    (text : List Char) : List Char :=
  stripBoth isHyphenB
    (collapseRuns isHyphenB '-'
      (preSanitize U allow_accents allow_punctuation allow_spaces allow_uppercase require_ascii text))








/-- Last path component; models `pathlib.Path(p).name` for POSIX paths. -/
def lastComponent (l : List Char) : List Char :=
  (l.reverse.takeWhile (fun c => !(c = '/'))).reverse

/-- Index of the last `'.'` in a name, if any; models `str.rfind('.')`
restricted to the found case. -/
def rfindDot (name : List Char) : Option Nat :=
  ((name.enum.filter (fun e => e.2 = '.')).getLast?).map (fun e => e.1)

/-- Models `pathlib.PurePath.stem` on a file name: the name up to the last
dot, provided that dot is neither the first nor the last character. -/
def pathStem (p : List Char) : List Char :=
  let name := lastComponent p
  match rfindDot name with
  | some i => if 0 < i ∧ i < name.length - 1 then name.take i else name
  | none => name

/-- Models `pathlib.PurePath.suffix` on a file name: the last dot and
what follows, provided the dot is neither the first nor the last
character; otherwise the empty string. -/
def pathSuffix (p : List Char) : List Char :=
  let name := lastComponent p
  match rfindDot name with
  | some i => if 0 < i ∧ i < name.length - 1 then name.drop i else []
  | none => []

example : pathStem "dir/a.b.c".data = "a.b".data := by decide
example : pathSuffix "IMG_1.JPG".data = ".JPG".data := by decide

/-- Calendar dates as extracted by the repository. -/
structure PyDate where
  year : Nat
  month : Nat
  day : Nat
deriving DecidableEq, Repr

/-- Gregorian leap-year rule, as enforced by `datetime.datetime`. -/
def isLeapYear (y : Nat) : Bool :=
  y % 4 = 0 && (y % 100 ≠ 0 || y % 400 = 0)

/-- Number of days of a month, as enforced by `datetime.datetime`. -/
def daysInMonth (y m : Nat) : Nat :=
  if m = 2 then (if isLeapYear y then 29 else 28)
  else if m = 4 ∨ m = 6 ∨ m = 9 ∨ m = 11 then 30
  else 31

/-- The validity check performed by the `datetime.datetime` constructor
(a `ValueError` is raised exactly when this is false). -/
def validYMD (y m d : Nat) : Bool :=
  1 ≤ y && y ≤ 9999 && 1 ≤ m && m ≤ 12 && 1 ≤ d && d ≤ daysInMonth y m

/-- Numeric value of an ASCII digit. -/
def digitVal (c : Char) : Nat :=
  c.toNat - 48

/-- Attempt to match the regex
`(?P<year>20\d{2})-(?P<month>\d{2})-(?P<day>\d{2})` at the head of the
list, returning the captured year/month/day values. -/
def matchDashedAt (l : List Char) : Option (Nat × Nat × Nat) :=
  match l with
  | '2' :: '0' :: a :: b :: '-' :: c :: d :: '-' :: e :: f :: _ =>
    if a.isDigit && b.isDigit && c.isDigit && d.isDigit && e.isDigit && f.isDigit then
      some (2000 + 10 * digitVal a + digitVal b,
            10 * digitVal c + digitVal d,
            10 * digitVal e + digitVal f)
    else none
  | _ => none

/-- Attempt to match the regex
`(?P<year>20\d{2})(?P<month>\d{2})(?P<day>\d{2})` at the head of the
list. -/
def matchCompactAt (l : List Char) : Option (Nat × Nat × Nat) :=
  match l with
  | '2' :: '0' :: a :: b :: c :: d :: e :: f :: _ =>
    if a.isDigit && b.isDigit && c.isDigit && d.isDigit && e.isDigit && f.isDigit then
      some (2000 + 10 * digitVal a + digitVal b,
            10 * digitVal c + digitVal d,
            10 * digitVal e + digitVal f)
    else none
  | _ => none

/-- Leftmost-match search: models `re.search`, trying the matcher at each
successive start position. -/
def searchFirst (m : List Char → Option (Nat × Nat × Nat)) :
    List Char → Option (Nat × Nat × Nat)
  | [] => none
  | c :: t =>
    match m (c :: t) with
    | some r => some r
    | none => searchFirst m t

/-- The compact-pattern arm of `get_filename_date`: first match of the
`YYYYMMDD` pattern, accepted if it is a valid calendar date, otherwise
(`ValueError` → `continue`, loop ends) no date. -/
def tryCompactPattern (filename : List Char) : Option PyDate :=
  match searchFirst matchCompactAt filename with
  | some (y, m, d) => if validYMD y m d then some ⟨y, m, d⟩ else none
  | none => none

/-- Embedding of `utils.py` `get_filename_date` (lines 169-193): take the
stem, try the dashed pattern first; on a match construct the date, and on
a `ValueError` fall through to the compact pattern; likewise for the
compact pattern; else `None`.  Note `re.search` yields only the first
match of each pattern. -/
def get_filename_date (image_path : List Char) : Option PyDate :=
  let filename := pathStem image_path
  match searchFirst matchDashedAt filename with
  | some (y, m, d) =>
    if validYMD y m d then some ⟨y, m, d⟩ else tryCompactPattern filename
  | none => tryCompactPattern filename

example : get_filename_date "20240101_photo.jpg".data = some ⟨2024, 1, 1⟩ := by decide
example : get_filename_date "photo-2024-01-01-at-10-30.jpg".data = some ⟨2024, 1, 1⟩ := by decide
example : get_filename_date "IMG_1234.jpg".data = none := by decide

/-- Embedding of `utils.py` `read_exif_date` (lines 131-166).  The guard
on line 143 compares the whole lowercased path against the tuple
`(".jpg", ".jpeg")`; only when the path equals one of those strings does
the function open the file and consult EXIF.  Reading the file, the
`exifread` tag lookup and `strptime` are an external collaborator,
bundled as the oracle `exif`; every failure path of the `try` block
returns `None`, which the oracle's `none` covers. -/
def read_exif_date (exif : List Char → Option PyDate) (image_path : List Char) :
    Option PyDate :=
  if pyLowerStr image_path = ".jpg".data ∨ pyLowerStr image_path = ".jpeg".data then
    exif image_path
  else none

/-- Decimal digits of a number, most significant first. -/
def natDigits (n : Nat) : List Char :=
  Nat.toDigits 10 n

/-- Zero-pad a number to a given width; models `strftime` field padding. -/
def padZero (w n : Nat) : List Char :=
  List.replicate (w - (natDigits n).length) '0' ++ natDigits n

/-- Models `date.strftime("%Y-%m-%d")`. -/
def formatYMD (d : PyDate) : List Char :=
  padZero 4 d.year ++ '-' :: padZero 2 d.month ++ '-' :: padZero 2 d.day


/-- Embedding of `rename_image_files.py` `get_image_date` (lines 91-96):
despite its docstring, it reads only `read_exif_date` and formats the
result. -/
def get_image_date (exif : List Char → Option PyDate) (image_path : List Char) :
    Option (List Char) :=
  (read_exif_date exif image_path).map formatYMD

/-- Models Python `str.title` on the ASCII range: the first cased
character of each alphabetic run is uppercased, the rest lowercased. -/
def pyTitleAux : Bool → List Char → List Char
  | _, [] => []
  | prevAlpha, c :: cs =>
    if pyIsAlpha c then
      (if prevAlpha then pyToLower c else pyToUpper c) :: pyTitleAux true cs
    else c :: pyTitleAux false cs

/-- Models Python `str.title` on the ASCII range. -/
def pyTitle (l : List Char) : List Char :=
  pyTitleAux false l

/-- Models Python `str.capitalize` on the ASCII range. -/
def pyCapitalize : List Char → List Char
  | [] => []
  | c :: cs => pyToUpper c :: cs.map pyToLower

/-- Embedding of `utils.py` `apply_case_style` (lines 196-219): empty
text or a `None`/unknown style returns the text unchanged. -/
def apply_case_style (text : List Char) (case_style : Option (List Char)) : List Char :=
  if text = [] ∨ case_style = none then text
  else match case_style with
    | some s =>
      if s = "lower".data then text.map pyToLower
      else if s = "upper".data then text.map pyToUpper
      else if s = "title".data then pyTitle text
      else if s = "sentence".data then pyCapitalize text
      else text
    | none => text

/-- Embedding of `types.py` `RenameOptions`: `allow_spaces = none` and
`case_style = none` mean "infer from the original name". -/
structure RenameOptions where
  add_dates : Bool
  allow_spaces : Option Bool
  case_style : Option (List Char)

/-- Embedding of `types.py` `CliOptions`. -/
structure CliOptions where
  dry_run : Bool
  process_all : Bool
  rename_options : RenameOptions
  jobs : Nat

/-- Embedding of `rename_image_files.py` `process_filename`
(lines 51-88): keep the original extension, clean the new stem, resolve
the spaces and case policies (inferring from the original name when
unset), sanitize, and reattach the extension. -/
def process_filename (U : UnicodeModel) (options : RenameOptions)
    (original new_name : List Char) : List Char :=
  let ext := pathSuffix original
  let base := pyStrip ((pathStem new_name).filter keepPunct)
  let allow_spaces :=
    match options.allow_spaces with
    | some b => b
    | none => original.any pySpace
  let base :=
    match options.case_style with
    | none => if original.any pyIsUpper then base else base.map pyToLower
    | some cs => apply_case_style base (some cs)
  let base := sanitize_filename U true true allow_spaces true false base
  base ++ ext

/-- Step of `re.sub(r"^\d{4}-\d{2}-\d{2}-", "", generated_name)`
(rename_image_files.py line 202): drop one leading date prefix. -/
def stripLeadingDate (l : List Char) : List Char :=
  match l with
  | a :: b :: c :: d :: '-' :: e :: f :: '-' :: g :: h :: '-' :: rest =>
    if a.isDigit && b.isDigit && c.isDigit && d.isDigit &&
       e.isDigit && f.isDigit && g.isDigit && h.isDigit then rest
    else l
  | _ => l

example : stripLeadingDate "sunset".data = "sunset".data := by decide

/-- The naming tail of `rename_image_files.py` `process_image`
(lines 153-154 and 198-220): gate the EXIF date on `add_dates`, strip a
leading date from the generated text, clean it with `process_filename`,
let the result of `get_image_date` (bound to `date_from_name` in the
source) override the date part, join date and name with the policy
separator, and run `process_filename` once more on the combined stem. -/
def process_image_name (U : UnicodeModel) (exif : List Char → Option PyDate)
    (options : CliOptions) (pathStr name response : List Char) : List Char :=
  let rename_options := options.rename_options
  let exif_date := if rename_options.add_dates then get_image_date exif pathStr else none
  let generated_name := stripLeadingDate response
  let clean_name := process_filename U rename_options name generated_name
  let date_part := if rename_options.add_dates then exif_date else none
  let date_part :=
    match get_image_date exif pathStr with
    | some d => some d
    | none => date_part
  let separator :=
    if rename_options.allow_spaces = some true ∨
       (rename_options.allow_spaces = none ∧ name.any (fun c => c = ' ')) then
      " ".data
    else "-".data
  let new_stem :=
    match date_part with
    | some d => d ++ separator ++ clean_name
    | none => clean_name
  process_filename U rename_options name new_stem

/-- A path, split as (directory part, file name); `with_name` keeps the
directory part and replaces the name. -/
abbrev FilePath2 := List Char × List Char

/-- A filesystem: an association of paths to content identifiers.  The
content identifier stands for the file's bytes, so that overwriting is
observable. -/
abbrev Fs := List (FilePath2 × Nat)

/-- Content at a path, if the path exists. -/
def fsLookup (fs : Fs) (p : FilePath2) : Option Nat :=
  (fs.find? (fun e => e.1 = p)).map (fun e => e.2)

/-- Models `Path.exists()`. -/
def fsExists (fs : Fs) (p : FilePath2) : Bool :=
  (fsLookup fs p).isSome

/-- Remove a path. -/
def fsErase (fs : Fs) (p : FilePath2) : Fs :=
  fs.filter (fun e => !(e.1 = p))

/-- Models `Path.rename` with POSIX semantics: the source entry moves to
the destination, silently replacing any file already there.  A missing
source (which would raise in Python, a case no theorem below exercises)
leaves the filesystem unchanged. -/
def fsRename (fs : Fs) (src dst : FilePath2) : Fs :=
  match fsLookup fs src with
  | some v => (dst, v) :: fsErase (fsErase fs src) dst
  | none => fs

/-- The rename tail of `rename_image_files.py` `process_image`
(lines 222-229): compute `new_path = image_path.with_name(new_name)`,
rename unless `dry_run`, and return `(image_path, new_name)`.  The full
path string passed to `get_image_date` is `dir ++ "/" ++ name`. -/
def process_image_step (U : UnicodeModel) (exif : List Char → Option PyDate)
    (options : CliOptions) (fs : Fs) (dir name response : List Char) :
    Fs × List Char :=
  let new_name := process_image_name U exif options (dir ++ '/' :: name) name response
  let fs1 := if options.dry_run then fs else fsRename fs (dir, name) (dir, new_name)
  (fs1, new_name)

/-- State threaded through the retry loop of `cli.py` `main`
(lines 222-243): the `success` flag, the `results` list of
`(model_name, prompt, full_name)` triples, and — for the theorems — the
trace of prompts actually passed to `generate_filename` together with a
running count of generator calls. -/
structure RetryState where
  success : Bool
  results : List (List Char × List Char × List Char)
  promptsUsed : List (List Char)
  calls : Nat
deriving DecidableEq, Repr

/-- Inner prompt loop of `cli.py` `main` (lines 233-239): for each
prompt `p`, call `generate_filename(model_obj, str(img_path), p)` —
note the argument is `p`, not the `current_prompt` computed on
lines 226-228 — and accept the first full name within the length bound,
breaking out.  The generator is the call-indexed oracle `gen`. -/
def promptLoop (gen : Nat → List Char) (modelName : List Char)
    (datePrefix suffixLower : List Char) :
    List (List Char) → RetryState → RetryState
  | [], st => st
  | p :: ps, st =>
    let new_name := gen st.calls
    let full_name := datePrefix ++ new_name ++ suffixLower
    let st1 : RetryState :=
      { st with promptsUsed := st.promptsUsed ++ [p], calls := st.calls + 1 }
    if full_name.length ≤ 255 then
      { st1 with results := st1.results ++ [(modelName, p, full_name)], success := true }
    else promptLoop gen modelName datePrefix suffixLower ps st1

/-- Model loop of `cli.py` `main` (lines 232-241): iterate the models,
stopping as soon as `success` is set. -/
def modelLoop (gen : Nat → List Char) (prompts : List (List Char))
    (datePrefix suffixLower : List Char) :
    List (List Char) → RetryState → RetryState
  | [], st => st
  | m :: ms, st =>
    let st1 := promptLoop gen m datePrefix suffixLower prompts st
    if st1.success then st1
    else modelLoop gen prompts datePrefix suffixLower ms st1

/-- Attempt loop of `cli.py` `main` (lines 224-243): up to
`MAX_RETRIES = 3` attempts; each attempt resets `results` to `[]`
(line 231) and runs the model loop; a successful attempt breaks. -/
def attemptLoop (gen : Nat → List Char) (models prompts : List (List Char))
    (datePrefix suffixLower : List Char) : Nat → RetryState → RetryState
  | 0, st => st
  | n + 1, st =>
    let st1 := modelLoop gen prompts datePrefix suffixLower models { st with results := [] }
    if st1.success then st1
    else attemptLoop gen models prompts datePrefix suffixLower n st1

/-- The per-spec escalation hint of `cli.py` line 228, which the code
computes into `current_prompt` but never passes to the generator. -/
def briefHint : List Char :=
  "Keep it very brief. ".data

/-- Rename block of `cli.py` `main` (lines 268-280): outside dry-run
with exactly one result, skip with reason `Target <path> exists` when
the target is already present, else rename.  The `OSError` arm
(lines 278-280) is not modelled: the abstract filesystem's rename does
not fail. -/
def cliRenameBlock (dry_run : Bool) (numResults : Nat) (fs : Fs)
    (img target : FilePath2) : Fs × Option (List Char) :=
  if !dry_run && numResults = 1 then
    if fsExists fs target then
      (fs, some ("Target ".data ++ target.1 ++ '/' :: target.2 ++ " exists".data))
    else (fsRename fs img target, none)
  else (fs, none)

/-- One candidate of the `cli.py` `main` processing loop
(lines 222-280): run the attempt loop; if no attempt produced an
in-budget name, skip with reason `Generated filename too long` and leave
the filesystem alone; otherwise run the rename block on the first
result's full name.  The returned pair is (filesystem, skip reason). -/
def cliCandidateStep (gen : Nat → List Char) (models prompts : List (List Char))
    (dry_run : Bool) (fs : Fs) (imgDir imgName datePrefix : List Char) :
    Fs × Option (List Char) :=
  let st := attemptLoop gen models prompts datePrefix
    (pyLowerStr (pathSuffix imgName)) 3 ⟨false, [], [], 0⟩
  if !st.success then (fs, some "Generated filename too long".data)
  else
    match st.results with
    | (_, _, full_name) :: _ =>
      cliRenameBlock dry_run st.results.length fs (imgDir, imgName) (imgDir, full_name)
    | [] => (fs, none)

/-- The prompt trace of the attempt loop, for a given generator and
configuration; used to state what `cli.py` actually sends. -/
def attemptPrompts (gen : Nat → List Char) (models prompts : List (List Char))
    (datePrefix suffixLower : List Char) : List (List Char) :=
  (attemptLoop gen models prompts datePrefix suffixLower 3 ⟨false, [], [], 0⟩).promptsUsed

/-- Rate limiting configuration of `rate_limiter.py` lines 4-7.  The
float values involved (1.0, 2.0, 60.0, 0.1 and the powers of two capped
at 60 that the state takes) are all exact in binary floating point, so
rationals model them faithfully. -/
def INITIAL_BACKOFF : ℚ := 1

/-- Maximum backoff in seconds. -/
def MAX_BACKOFF : ℚ := 60

/-- Multiply by this after each failure. -/
def BACKOFF_FACTOR : ℚ := 2

/-- Embedding of the `RateLimiter` state (`rate_limiter.py`
lines 13-18).  The `asyncio.Lock` serializes the three operations; here
each operation is an atomic state transition, which is exactly what the
lock guarantees. -/
structure RateLimiter where
  current_backoff : ℚ
  last_error_time : ℚ
  last_request_time : ℚ
  min_request_interval : ℚ
deriving DecidableEq

/-- Initial state built by `RateLimiter.__init__`. -/
def RateLimiter.init : RateLimiter :=
  ⟨INITIAL_BACKOFF, 0, 0, 1/10⟩

/-- Embedding of `RateLimiter.on_success` (lines 38-42): reset the
backoff to the floor and clear the error timestamp. -/
def RateLimiter.on_success (s : RateLimiter) : RateLimiter :=
  { s with current_backoff := INITIAL_BACKOFF, last_error_time := 0 }

/-- Embedding of `RateLimiter.on_rate_limit` (lines 44-49): record the
error time, multiply the backoff by the factor capped at the maximum,
and return the new backoff. -/
def RateLimiter.on_rate_limit (now : ℚ) (s : RateLimiter) : RateLimiter × ℚ :=
  let b := min (s.current_backoff * BACKOFF_FACTOR) MAX_BACKOFF
  ({ s with last_error_time := now, current_backoff := b }, b)

/-- Embedding of `RateLimiter.before_request` (lines 20-36): the waiting
is real time, not state; the only state change is recording the request
issue time. -/
def RateLimiter.before_request (now : ℚ) (s : RateLimiter) : RateLimiter :=
  { s with last_request_time := now }

/-- The backoff bounds invariant: the backoff stays in the interval from
the floor `INITIAL_BACKOFF` to the cap `MAX_BACKOFF`. -/
def backoffInv (s : RateLimiter) : Prop :=
  INITIAL_BACKOFF ≤ s.current_backoff ∧ s.current_backoff ≤ MAX_BACKOFF

/-- A directory tree: name, plain file names, subdirectories.  Models
the part of the filesystem that `scan_directory` and `iter_image_files`
traverse. -/
inductive DirTree where
  | node (dirName : List Char) (fileNames : List (List Char)) (subdirs : List DirTree)

/-- Name of a directory. -/
def DirTree.name : DirTree → List Char
  | .node n _ _ => n

/-- Models `item.name.startswith(".")`. -/
def startsWithDot (n : List Char) : Bool :=
  match n with
  | c :: _ => c = '.'
  | [] => false

/-- The extension filter of `cli.py` `scan_directory` (lines 90, 109):
`item.suffix.lower() in [".jpg", ".jpeg", ".png", ".gif"]`. -/
def cliImageExt (f : List Char) : Bool :=
  let s := pyLowerStr (pathSuffix f)
  s = ".jpg".data || s = ".jpeg".data || s = ".png".data || s = ".gif".data

/-- The extension filter of `image_utils.py` `is_image_file`
(lines 114-117). -/
def is_image_file (f : List Char) : Bool :=
  let s := pyLowerStr (pathSuffix f)
  s = ".jpg".data || s = ".jpeg".data || s = ".png".data || s = ".gif".data ||
  s = ".bmp".data || s = ".heic".data || s = ".webp".data || s = ".tiff".data ||
  s = ".tif".data

/-- Embedding of the recursive `scan_dir` of `cli.py` `scan_directory`
(lines 96-119): first emit this directory's files with a recognized
image extension, then — only when `recursive` is set — descend into the
subdirectories whose name does not start with a dot.  Paths are returned
as component lists relative to the scanned root.  The early-termination
`done` flag and the queue plumbing are presentation-side and not
modelled. -/
def scanDir (recursive : Bool) : DirTree → List (List (List Char))
  | .node _ files subdirs =>
    (files.filter cliImageExt).map (fun f => [f]) ++
    (if recursive then
      (subdirs.attach.map (fun d =>
        if startsWithDot d.1.name then []
        else (scanDir recursive d.1).map (fun p => d.1.name :: p))).flatten
    else [])
termination_by t => sizeOf t
decreasing_by
  simp_wf
  have h := List.sizeOf_lt_of_mem d.2
  omega

/-- Embedding of the directory branch of `list_files.py`
`iter_image_files` (lines 33-49): keep the image files that pass the
`process_all`-or-`needs_rename` gate, then recurse into every
subdirectory. The classifier `needs_rename` is passed as a parameter
(its regexes do not affect the enumeration structure); the
`EmptyDirectoryError` notices and the entry sort are omitted — they do
not change which file paths are produced, which is all the theorems
below state. -/
def iterImageFilesDir (needsRen : List Char → Bool) (process_all : Bool) :
    DirTree → List (List (List Char))
  | .node _ files subdirs =>
    let image_files := files.filter is_image_file
    let files_to_process := image_files.filter (fun f => process_all || needsRen f)
    files_to_process.map (fun f => [f]) ++
    (subdirs.attach.map (fun d =>
      (iterImageFilesDir needsRen process_all d.1).map (fun p => d.1.name :: p))).flatten
termination_by t => sizeOf t
decreasing_by
  simp_wf
  have h := List.sizeOf_lt_of_mem d.2
  omega



/-!
Sanity checks: the embedded functions reproduce the repository's unit
tests (`tests/test_utils.py`) on concrete inputs.
-/

example : sanitize_filename asciiModel true true true true false "Hello, World!".data
    = "Hello, World!".data := by decide

example : sanitize_filename asciiModel true false true true false "Hello, World!".data
    = "Hello World".data := by decide

example : sanitize_filename asciiModel true false true true false "Hello—World".data
    = "Hello-World".data := by decide

example : sanitize_filename asciiModel true true false true false "Hello  World".data
    = "Hello-World".data := by decide

example : sanitize_filename asciiModel true true true false false "HELLO WORLD".data
    = "hello world".data := by decide

example : sanitize_filename asciiModel true false true true false "---test---".data
    = "test".data := by decide

example : sanitize_filename asciiModel true true true true false "   spaces   ".data
    = "spaces".data := by decide

example : pathStem "2024-01-01-photo.jpg".data = "2024-01-01-photo".data := by decide

example : pathStem ".jpg".data = ".jpg".data := by decide

example : pathSuffix "noext".data = [] := by decide

example : get_filename_date "2024-01-01-photo.jpg".data = some ⟨2024, 1, 1⟩ := by decide

example : get_filename_date "Screenshot 2024-01-01.png".data = some ⟨2024, 1, 1⟩ := by decide

example : get_filename_date "photo.jpg".data = none := by decide

example : formatYMD ⟨2024, 1, 1⟩ = "2024-01-01".data := by decide

example : stripLeadingDate "2024-01-01-sunset".data = "sunset".data := by decide

/-- Recursion principle for `DirTree` along subdirectory membership. -/
theorem DirTree.memRec (P : DirTree → Prop)
    (h : ∀ n fs sd, (∀ d ∈ sd, P d) → P (.node n fs sd)) : ∀ t, P t
  | .node n fs sd => h n fs sd (fun d hd => DirTree.memRec P h d)
termination_by t => sizeOf t
decreasing_by
  simp_wf
  have h2 := List.sizeOf_lt_of_mem hd
  omega

/-!
Claim theorems.
-/

/-- C7: the rate limiter's backoff starts at the 1s floor and every
operation keeps it within [1s, 60s]; `on_rate_limit` multiplies the
backoff by 2 capped at 60s and returns the new value, so two successive
calls from the initial state return 2s then 4s; `on_success` resets the
backoff to the floor and clears the error timestamp. -/
theorem rate_limiter_backoff_spec :
    RateLimiter.init.current_backoff = INITIAL_BACKOFF ∧
    (∀ (s : RateLimiter) (now : ℚ), backoffInv s →
      backoffInv s.on_success ∧ backoffInv (s.on_rate_limit now).1 ∧
      backoffInv (s.before_request now)) ∧
    (∀ (s : RateLimiter) (now : ℚ), (s.on_rate_limit now).2 =
        min (s.current_backoff * BACKOFF_FACTOR) MAX_BACKOFF ∧
      (s.on_rate_limit now).1.current_backoff = (s.on_rate_limit now).2) ∧
    (∀ t1 t2 : ℚ, (RateLimiter.init.on_rate_limit t1).2 = 2 ∧
      (((RateLimiter.init.on_rate_limit t1).1.on_rate_limit t2)).2 = 4) ∧
    (∀ s : RateLimiter, s.on_success.current_backoff = INITIAL_BACKOFF ∧
      s.on_success.last_error_time = 0) := by
  refine ⟨rfl, ?_, ?_, ?_, ?_⟩
  · rintro s now ⟨h1, h2⟩
    refine ⟨⟨le_refl _, ?_⟩, ⟨?_, ?_⟩, h1, h2⟩
    · show INITIAL_BACKOFF ≤ MAX_BACKOFF
      norm_num [INITIAL_BACKOFF, MAX_BACKOFF]
    · show INITIAL_BACKOFF ≤ min (s.current_backoff * BACKOFF_FACTOR) MAX_BACKOFF
      refine le_min ?_ ?_
      · simp only [INITIAL_BACKOFF, BACKOFF_FACTOR] at h1 ⊢
        linarith
      · norm_num [INITIAL_BACKOFF, MAX_BACKOFF]
    · show min (s.current_backoff * BACKOFF_FACTOR) MAX_BACKOFF ≤ MAX_BACKOFF
      exact min_le_right _ _
  · intro s now
    exact ⟨rfl, rfl⟩
  · intro t1 t2
    constructor
    · show min (INITIAL_BACKOFF * BACKOFF_FACTOR) MAX_BACKOFF = 2
      norm_num [INITIAL_BACKOFF, BACKOFF_FACTOR, MAX_BACKOFF, min_def]
    · show min (min (INITIAL_BACKOFF * BACKOFF_FACTOR) MAX_BACKOFF * BACKOFF_FACTOR)
        MAX_BACKOFF = 4
      norm_num [INITIAL_BACKOFF, BACKOFF_FACTOR, MAX_BACKOFF, min_def]
  · intro s
    exact ⟨rfl, rfl⟩

/-- Witness for `rate_limiter_backoff_spec` at the initial state. -/
theorem rate_limiter_backoff_spec_witness :
    backoffInv RateLimiter.init.on_success ∧
    backoffInv (RateLimiter.init.on_rate_limit 5).1 := by
  have h := rate_limiter_backoff_spec.2.1 RateLimiter.init 5
    (by constructor <;> simp [RateLimiter.init, INITIAL_BACKOFF, MAX_BACKOFF])
  exact ⟨h.1, h.2.1⟩

/-- C8: with `dry_run` set `process_image` leaves the filesystem
untouched, and the reported name equals what the non-dry-run mode
produces from the same model output. -/
theorem dry_run_frame_and_name_agreement (U : UnicodeModel)
    (exif : List Char → Option PyDate) (options : CliOptions) (fs : Fs)
    (dir name response : List Char) :
    (process_image_step U exif { options with dry_run := true } fs dir name response).1
      = fs ∧
    (process_image_step U exif { options with dry_run := true } fs dir name response).2
      = (process_image_step U exif { options with dry_run := false } fs dir name response).2 := by
  exact ⟨rfl, rfl⟩

set_option maxRecDepth 8000 in
/-- C1 counterexample: in the asynchronous orchestrator, `process_image`
performs the rename even though the computed target path already exists,
and the target's previous content is destroyed. -/
theorem process_image_renames_onto_existing_target :
    fsExists [(("d".data, "IMG_1.jpg".data), 0), (("d".data, "target.jpg".data), 1)]
      ("d".data, "target.jpg".data) = true ∧
    (process_image_step asciiModel (fun _ => none) ⟨false, false, ⟨false, none, none⟩, 1⟩
      [(("d".data, "IMG_1.jpg".data), 0), (("d".data, "target.jpg".data), 1)]
      "d".data "IMG_1.jpg".data "target".data).2 = "target.jpg".data ∧
    fsLookup (process_image_step asciiModel (fun _ => none) ⟨false, false, ⟨false, none, none⟩, 1⟩
      [(("d".data, "IMG_1.jpg".data), 0), (("d".data, "target.jpg".data), 1)]
      "d".data "IMG_1.jpg".data "target".data).1 ("d".data, "target.jpg".data) = some 0 ∧
    fsLookup [(("d".data, "IMG_1.jpg".data), 0), (("d".data, "target.jpg".data), 1)]
      ("d".data, "target.jpg".data) = some 1 := by
  decide

/-- C1 as amended: in the CLI orchestrator (`cli.py` `main`), outside
dry-run, a rename is performed only when the target does not exist; when
the target exists the candidate is skipped with reason
`Target <path> exists`, the filesystem is unchanged, and the existing
content is preserved. -/
theorem cli_rename_block_never_overwrites (fs : Fs) (img target : FilePath2) (v : Nat)
    (hx : fsLookup fs target = some v) :
    (cliRenameBlock false 1 fs img target).1 = fs ∧
    (cliRenameBlock false 1 fs img target).2 =
      some ("Target ".data ++ target.1 ++ '/' :: target.2 ++ " exists".data) ∧
    fsLookup (cliRenameBlock false 1 fs img target).1 target = some v := by
  have hex : fsExists fs target = true := by simp [fsExists, hx]
  refine ⟨?_, ?_, ?_⟩ <;> simp [cliRenameBlock, hex, hx]

/-- Witness for `cli_rename_block_never_overwrites` on a one-file
filesystem. -/
theorem cli_rename_block_never_overwrites_witness :
    (cliRenameBlock false 1 [(("d".data, "t.jpg".data), 7)]
      ("d".data, "s.jpg".data) ("d".data, "t.jpg".data)).1
      = [(("d".data, "t.jpg".data), 7)] := by
  exact (cli_rename_block_never_overwrites [(("d".data, "t.jpg".data), 7)]
    ("d".data, "s.jpg".data) ("d".data, "t.jpg".data) 7 (by decide)).1

set_option maxRecDepth 8000 in
/-- C3: `process_image` never uses the date embedded in the original
filename.  For `2024-06-07-IMG.jpg`, `get_filename_date` does extract
2024-06-07, but the naming pipeline (which consults only
`get_image_date`, despite its comment "Use date from original filename
if present") produces a name with no date prefix. -/
theorem filename_date_never_becomes_prefix :
    get_filename_date "2024-06-07-IMG.jpg".data = some ⟨2024, 6, 7⟩ ∧
    process_image_name asciiModel (fun _ => none)
      ⟨false, false, ⟨true, none, none⟩, 1⟩
      "2024-06-07-IMG.jpg".data "2024-06-07-IMG.jpg".data "sunset".data
      = "sunset.jpg".data ∧
    ("sunset.jpg".data).take 10 ≠ formatYMD ⟨2024, 6, 7⟩ := by
  decide

/-- C10: `read_exif_date` compares the whole lowercased path — not its
suffix — against `".jpg"`/`".jpeg"`, so for every path other than those
two literal strings it returns `None` without consulting the file, the
orchestrator's `get_image_date` returns `None`, and the composed name
never receives a metadata date prefix even when `add_dates` is set. -/
theorem read_exif_date_guard_blocks_all_paths (exif : List Char → Option PyDate)
    (p : List Char) (h1 : pyLowerStr p ≠ ".jpg".data)
    (h2 : pyLowerStr p ≠ ".jpeg".data) :
    read_exif_date exif p = none ∧ get_image_date exif p = none ∧
    (∀ U options name response,
      process_image_name U exif options p name response =
        process_filename U options.rename_options name
          (process_filename U options.rename_options name (stripLeadingDate response))) := by
  have hr : read_exif_date exif p = none := by
    simp [read_exif_date, h1, h2]
  have hg : get_image_date exif p = none := by
    simp [get_image_date, hr]
  refine ⟨hr, hg, ?_⟩
  intro U options name response
  simp [process_image_name, hg]

/-- Witness for `read_exif_date_guard_blocks_all_paths`: even with an
oracle that would report an EXIF date, the guard suppresses it for
`photo.jpg`. -/
theorem read_exif_date_guard_blocks_all_paths_witness :
    read_exif_date (fun _ => some ⟨2030, 12, 31⟩) "photo.jpg".data = none ∧
    get_image_date (fun _ => some ⟨2030, 12, 31⟩) "photo.jpg".data = none := by
  have h := read_exif_date_guard_blocks_all_paths (fun _ => some ⟨2030, 12, 31⟩)
    "photo.jpg".data (by decide) (by decide)
  exact ⟨h.1, h.2.1⟩

set_option maxRecDepth 8000 in
/-- C2: when every attempt produces an over-budget name, the CLI loop
skips the candidate with reason `Generated filename too long` and leaves
the filesystem alone; but all three generator calls receive the original
prompt — the terser `current_prompt` built on line 228 of `cli.py` is
never passed. -/
theorem cli_retry_exhaustion_skips_with_original_prompt :
    cliCandidateStep (fun _ => List.replicate 300 'a') ["m".data]
      ["Describe this image".data] false [(("d".data, "IMG_1.jpg".data), 0)]
      "d".data "IMG_1.jpg".data []
      = ([(("d".data, "IMG_1.jpg".data), 0)], some "Generated filename too long".data) ∧
    attemptPrompts (fun _ => List.replicate 300 'a') ["m".data]
      ["Describe this image".data] [] ".jpg".data
      = ["Describe this image".data, "Describe this image".data, "Describe this image".data] ∧
    attemptPrompts (fun _ => List.replicate 300 'a') ["m".data]
      ["Describe this image".data] [] ".jpg".data
      ≠ ["Describe this image".data, briefHint ++ "Describe this image".data,
         briefHint ++ "Describe this image".data] := by
  refine ⟨?_, ?_, ?_⟩ <;> decide

/-- Any date produced by the compact-pattern arm is calendar-valid. -/
theorem tryCompactPattern_valid (f : List Char) (y m d : Nat)
    (h : tryCompactPattern f = some ⟨y, m, d⟩) : validYMD y m d = true := by
  unfold tryCompactPattern at h
  split at h
  · split at h
    · simp only [Option.some.injEq, PyDate.mk.injEq] at h
      obtain ⟨h1, h2, h3⟩ := h
      subst h1
      subst h2
      subst h3
      assumption
    · exact absurd h (by simp)
  · exact absurd h (by simp)

/-- C6 as amended: `get_filename_date` scans the stem, trying the dashed
pattern in full before the compact one; only the first `re.search` match
of each pattern is considered, a calendar-invalid match making the scan
fall through to the next pattern (never erroring), so any returned date
is calendar-valid, and the specification's three examples hold. -/
theorem get_filename_date_sound_and_examples :
    (∀ (p : List Char) (y m d : Nat),
      get_filename_date p = some ⟨y, m, d⟩ → validYMD y m d = true) ∧
    get_filename_date "2024-01-01-photo.jpg".data = some ⟨2024, 1, 1⟩ ∧
    get_filename_date "20240101_photo.jpg".data = some ⟨2024, 1, 1⟩ ∧
    get_filename_date "IMG_1234.jpg".data = none := by
  refine ⟨?_, by decide, by decide, by decide⟩
  intro p y m d h
  simp only [get_filename_date] at h
  split at h
  · split at h
    · simp only [Option.some.injEq, PyDate.mk.injEq] at h
      obtain ⟨h1, h2, h3⟩ := h
      subst h1
      subst h2
      subst h3
      assumption
    · exact tryCompactPattern_valid _ _ _ _ h
  · exact tryCompactPattern_valid _ _ _ _ h

/-- Witness for `get_filename_date_sound_and_examples`: the soundness
conjunct applied at a concrete extraction. -/
theorem get_filename_date_sound_and_examples_witness :
    validYMD 2024 1 1 = true :=
  get_filename_date_sound_and_examples.1 "2024-01-01-photo.jpg".data 2024 1 1 (by decide)

set_option maxRecDepth 8000 in
/-- C6 counterexample: for a stem whose first dashed-pattern occurrence
is calendar-invalid (`2024-13-99`) while a later valid date
(`2023-05-06`) follows in the same stem, the code returns no date at
all: after a `ValueError` it moves to the *next pattern*, not to the
next occurrence of the same pattern. -/
theorem get_filename_date_skips_later_valid_date :
    get_filename_date "2024-13-99-2023-05-06.jpg".data = none ∧
    searchFirst matchDashedAt (pathStem "2024-13-99-2023-05-06.jpg".data)
      = some (2024, 13, 99) ∧
    validYMD 2024 13 99 = false ∧
    searchFirst matchDashedAt
      (List.drop 11 (pathStem "2024-13-99-2023-05-06.jpg".data))
      = some (2023, 5, 6) ∧
    validYMD 2023 5 6 = true := by
  refine ⟨?_, ?_, ?_, ?_, ?_⟩ <;> decide

/-- Unfolding lemma for `scanDir` with the membership-annotation
removed. -/
theorem scanDir_node (recursive : Bool) (n : List Char) (files : List (List Char))
    (subdirs : List DirTree) :
    scanDir recursive (.node n files subdirs) =
      (files.filter cliImageExt).map (fun f => [f]) ++
      (if recursive then
        (subdirs.map (fun d =>
          if startsWithDot d.name then []
          else (scanDir recursive d).map (fun p => d.name :: p))).flatten
      else []) := by
  rw [scanDir]
  rw [List.attach_map_val subdirs (fun d =>
    if startsWithDot d.name then []
    else (scanDir recursive d).map (fun p => d.name :: p))]

/-- Unfolding lemma for `iterImageFilesDir` with the
membership-annotation removed. -/
theorem iterImageFilesDir_node (needsRen : List Char → Bool) (process_all : Bool)
    (n : List Char) (files : List (List Char)) (subdirs : List DirTree) :
    iterImageFilesDir needsRen process_all (.node n files subdirs) =
      ((files.filter is_image_file).filter
        (fun f => process_all || needsRen f)).map (fun f => [f]) ++
      (subdirs.map (fun d =>
        (iterImageFilesDir needsRen process_all d).map (fun p => d.name :: p))).flatten := by
  rw [iterImageFilesDir]
  rw [List.attach_map_val subdirs (fun d =>
    (iterImageFilesDir needsRen process_all d).map (fun p => d.name :: p))]

/-- C9 as amended: the CLI scanner `scan_directory` yields only the
root directory's own files when recursion is not requested, and when
recursing it never yields a path that passes through a directory whose
name starts with a dot; the asynchronous enumerator `iter_image_files`,
by contrast, recurses unconditionally (see the counterexample). -/
theorem scan_directory_recursion_and_dot_skip :
    (∀ (t : DirTree) (p : List (List Char)), p ∈ scanDir false t → p.length = 1) ∧
    (∀ (recursive : Bool) (t : DirTree) (p : List (List Char)) (comp : List Char),
      p ∈ scanDir recursive t → comp ∈ p.dropLast → startsWithDot comp = false) := by
  constructor
  · intro t p hp
    obtain ⟨n, files, subdirs⟩ := t
    rw [scanDir_node] at hp
    simp only [if_neg (by simp : ¬ false = true), List.append_nil, List.mem_map] at hp
    obtain ⟨f, _, rfl⟩ := hp
    rfl
  · intro recursive t
    induction t using DirTree.memRec with
    | h n files subdirs IH =>
      intro p comp hp hc
      rw [scanDir_node] at hp
      rcases List.mem_append.1 hp with hfile | hrec
      · obtain ⟨f, _, rfl⟩ := List.mem_map.1 hfile
        simp at hc
      · cases recursive with
        | false => simp at hrec
        | true =>
          rw [if_pos rfl] at hrec
          obtain ⟨l, hl, hpl⟩ := List.mem_flatten.1 hrec
          obtain ⟨d, hd, rfl⟩ := List.mem_map.1 hl
          by_cases hdot : startsWithDot d.name = true
          · rw [if_pos hdot] at hpl
            simp at hpl
          · rw [if_neg hdot] at hpl
            obtain ⟨q, hq, rfl⟩ := List.mem_map.1 hpl
            cases q with
            | nil => simp at hc
            | cons a as =>
              rw [List.dropLast_cons₂] at hc
              rcases List.mem_cons.1 hc with rfl | hc2
              · exact Bool.eq_false_iff.2 hdot
              · exact IH d hd (a :: as) comp hq
                  (by simpa [List.dropLast_cons₂] using hc2)

/-- Witness for `scan_directory_recursion_and_dot_skip` on a concrete
two-level tree. -/
theorem scan_directory_recursion_and_dot_skip_witness :
    startsWithDot "sub".data = false :=
  scan_directory_recursion_and_dot_skip.2 true
    (.node "d".data [] [.node "sub".data ["a.jpg".data] []])
    ["sub".data, "a.jpg".data] "sub".data
    (by
      rw [scanDir_node]
      simp only [List.map_cons, List.map_nil]
      rw [scanDir_node]
      decide)
    (by decide)

/-- C9 counterexample: `iter_image_files` descends into a subdirectory
whose name starts with a dot (its recursion is also unconditional: it
consults no recursion option at all), yielding the image inside
`.hidden`. -/
theorem iter_image_files_enters_dot_directory :
    [".hidden".data, "IMG_1.jpg".data] ∈
      iterImageFilesDir (fun _ => false) true
        (.node "d".data [] [.node ".hidden".data ["IMG_1.jpg".data] []]) ∧
    startsWithDot ".hidden".data = true := by
  constructor
  · rw [iterImageFilesDir_node]
    simp only [List.map_cons, List.map_nil]
    rw [iterImageFilesDir_node]
    decide
  · decide

/-!
Lemma library for `collapseRuns` and `stripBoth`, used by the sanitizer
theorems.
-/

/-- Every character of a collapsed list is the replacement or came from
the input. -/
theorem mem_collapseRunsAux (p : Char → Bool) (r : Char) (l : List Char) :
    ∀ (flag : Bool) (c : Char), c ∈ collapseRunsAux p r flag l → c = r ∨ c ∈ l := by
  induction l with
  | nil =>
    intro flag c hc
    cases flag <;> simp [collapseRunsAux] at hc
  | cons a as IH =>
    intro flag c hc
    cases flag with
    | true =>
      simp only [collapseRunsAux] at hc
      split at hc
      · rcases IH true c hc with h | h
        · exact Or.inl h
        · exact Or.inr (List.mem_cons_of_mem _ h)
      · rcases List.mem_cons.1 hc with rfl | h
        · exact Or.inr (List.mem_cons_self _ _)
        · rcases IH false c h with h2 | h2
          · exact Or.inl h2
          · exact Or.inr (List.mem_cons_of_mem _ h2)
    | false =>
      simp only [collapseRunsAux] at hc
      split at hc
      · rcases List.mem_cons.1 hc with rfl | h
        · exact Or.inl rfl
        · rcases IH true c h with h2 | h2
          · exact Or.inl h2
          · exact Or.inr (List.mem_cons_of_mem _ h2)
      · rcases List.mem_cons.1 hc with rfl | h
        · exact Or.inr (List.mem_cons_self _ _)
        · rcases IH false c h with h2 | h2
          · exact Or.inl h2
          · exact Or.inr (List.mem_cons_of_mem _ h2)

/-- In run-skipping state, the next emitted character fails `p`. -/
theorem head_not_of_collapseRunsAux_true (p : Char → Bool) (r : Char) (l : List Char) :
    ∀ h, (collapseRunsAux p r true l).head? = some h → p h = false := by
  induction l with
  | nil =>
    intro h hh
    simp [collapseRunsAux] at hh
  | cons a as IH =>
    intro h hh
    simp only [collapseRunsAux] at hh
    split at hh
    · exact IH h hh
    · rename_i hp
      simp only [List.head?_cons, Option.some.injEq] at hh
      subst hh
      exact Bool.eq_false_iff.2 hp

/-- The head of a collapsed list is the replacement or the input's head. -/
theorem head_of_collapseRunsAux_false (p : Char → Bool) (r : Char) (l : List Char) :
    ∀ h, (collapseRunsAux p r false l).head? = some h → h = r ∨ l.head? = some h := by
  cases l with
  | nil =>
    intro h hh
    simp [collapseRunsAux] at hh
  | cons a as =>
    intro h hh
    simp only [collapseRunsAux] at hh
    split at hh
    · simp only [List.head?_cons, Option.some.injEq] at hh
      exact Or.inl hh.symm
    · simp only [List.head?_cons, Option.some.injEq] at hh
      exact Or.inr (by rw [List.head?_cons, hh])

/-- A collapsed list never has two adjacent characters satisfying `p`. -/
theorem chain'_collapseRunsAux (p : Char → Bool) (r : Char) (l : List Char) :
    ∀ flag, List.Chain' (fun x y => p x = false ∨ p y = false)
      (collapseRunsAux p r flag l) := by
  induction l with
  | nil =>
    intro flag
    cases flag <;> simp [collapseRunsAux]
  | cons a as IH =>
    intro flag
    cases flag with
    | true =>
      simp only [collapseRunsAux]
      split
      · exact IH true
      · rename_i hp
        rw [List.chain'_cons']
        exact ⟨fun y _ => Or.inl (Bool.eq_false_iff.2 hp), IH false⟩
    | false =>
      simp only [collapseRunsAux]
      split
      · rw [List.chain'_cons']
        refine ⟨?_, IH true⟩
        intro y hy
        exact Or.inr (head_not_of_collapseRunsAux_true p r as y (Option.mem_def.1 hy))
      · rename_i hp
        rw [List.chain'_cons']
        exact ⟨fun y _ => Or.inl (Bool.eq_false_iff.2 hp), IH false⟩

/-- Every character of a collapsed list satisfying `p` is the
replacement. -/
theorem eq_r_of_mem_collapseRunsAux (p : Char → Bool) (r : Char) (l : List Char) :
    ∀ flag c, c ∈ collapseRunsAux p r flag l → p c = true → c = r := by
  induction l with
  | nil =>
    intro flag c hc
    cases flag <;> simp [collapseRunsAux] at hc
  | cons a as IH =>
    intro flag c hc hpc
    cases flag with
    | true =>
      simp only [collapseRunsAux] at hc
      split at hc
      · exact IH true c hc hpc
      · rename_i hp
        rcases List.mem_cons.1 hc with rfl | h
        · exact absurd hpc hp
        · exact IH false c h hpc
    | false =>
      simp only [collapseRunsAux] at hc
      split at hc
      · rcases List.mem_cons.1 hc with rfl | h
        · rfl
        · exact IH true c h hpc
      · rename_i hp
        rcases List.mem_cons.1 hc with rfl | h
        · exact absurd hpc hp
        · exact IH false c h hpc

/-- Collapsing is the identity on lists whose `p`-characters are already
the replacement and carry no adjacent `p`-pair. -/
theorem collapseRunsAux_eq_self (p : Char → Bool) (r : Char) (l : List Char)
    (hall : ∀ c ∈ l, p c = true → c = r)
    (hch : List.Chain' (fun x y => p x = false ∨ p y = false) l) :
    ∀ flag, (flag = true → ∀ h, l.head? = some h → p h = false) →
      collapseRunsAux p r flag l = l := by
  induction l with
  | nil =>
    intro flag _
    cases flag <;> rfl
  | cons a as IH =>
    intro flag hflag
    have hch2 := (List.chain'_cons'.1 hch).2
    have hrel := (List.chain'_cons'.1 hch).1
    have hall2 : ∀ c ∈ as, p c = true → c = r :=
      fun c hc => hall c (List.mem_cons_of_mem _ hc)
    cases flag with
    | true =>
      have hpa : p a = false := hflag rfl a rfl
      simp only [collapseRunsAux, hpa, Bool.false_eq_true, if_false]
      rw [IH hall2 hch2 false (fun h => absurd h (by simp))]
    | false =>
      by_cases hpa : p a = true
      · have har : a = r := hall a (List.mem_cons_self a as) hpa
        simp only [collapseRunsAux, hpa, if_true]
        rw [IH hall2 hch2 true ?_]
        · rw [har]
        · intro _ h hh
          rcases hrel h (Option.mem_def.2 hh) with h1 | h1
          · rw [hpa] at h1
            exact absurd h1 (by simp)
          · exact h1
      · have hpa2 : p a = false := Bool.eq_false_iff.2 hpa
        simp only [collapseRunsAux, hpa2, Bool.false_eq_true, if_false]
        rw [IH hall2 hch2 false (fun h => absurd h (by simp))]

/-- `collapseRuns` version of `collapseRunsAux_eq_self`. -/
theorem collapseRuns_eq_self (p : Char → Bool) (r : Char) (l : List Char)
    (hall : ∀ c ∈ l, p c = true → c = r)
    (hch : List.Chain' (fun x y => p x = false ∨ p y = false) l) :
    collapseRuns p r l = l :=
  collapseRunsAux_eq_self p r l hall hch false (fun h => absurd h (by simp))

/-- A list without `p`-characters has no adjacent `p`-pair. -/
theorem chain'_of_all_false (p : Char → Bool) (l : List Char)
    (hnp : ∀ c ∈ l, p c = false) :
    List.Chain' (fun x y => p x = false ∨ p y = false) l := by
  induction l with
  | nil => simp
  | cons a as IH =>
    rw [List.chain'_cons']
    exact ⟨fun y _ => Or.inl (hnp a (List.mem_cons_self a as)),
      IH (fun c hc => hnp c (List.mem_cons_of_mem _ hc))⟩

/-- Collapsing is the identity on lists without `p`-characters. -/
theorem collapseRuns_eq_self_of_no_p (p : Char → Bool) (r : Char) (l : List Char)
    (hnp : ∀ c ∈ l, p c = false) :
    collapseRuns p r l = l := by
  apply collapseRuns_eq_self
  · intro c hc hpc
    rw [hnp c hc] at hpc
    exact absurd hpc (by simp)
  · exact chain'_of_all_false p l hnp

/-- Collapsing runs of `p` preserves the absence of adjacent `q`-pairs,
provided the replacement is not a `q`-character. -/
theorem chain'_collapseRunsAux_preserve (p : Char → Bool) (r : Char) (q : Char → Bool)
    (hqr : q r = false) (l : List Char) :
    ∀ flag, List.Chain' (fun x y => q x = false ∨ q y = false) l →
      List.Chain' (fun x y => q x = false ∨ q y = false)
        (collapseRunsAux p r flag l) := by
  induction l with
  | nil =>
    intro flag _
    cases flag <;> simp [collapseRunsAux]
  | cons a as IH =>
    intro flag hch
    have hch2 := (List.chain'_cons'.1 hch).2
    have hrel := (List.chain'_cons'.1 hch).1
    cases flag with
    | true =>
      simp only [collapseRunsAux]
      split
      · exact IH true hch2
      · rw [List.chain'_cons']
        refine ⟨?_, IH false hch2⟩
        intro y hy
        rcases head_of_collapseRunsAux_false p r as y (Option.mem_def.1 hy) with rfl | hy2
        · exact Or.inr hqr
        · exact hrel y (Option.mem_def.2 hy2)
    | false =>
      simp only [collapseRunsAux]
      split
      · rw [List.chain'_cons']
        exact ⟨fun y _ => Or.inl hqr, IH true hch2⟩
      · rw [List.chain'_cons']
        refine ⟨?_, IH false hch2⟩
        intro y hy
        rcases head_of_collapseRunsAux_false p r as y (Option.mem_def.1 hy) with rfl | hy2
        · exact Or.inr hqr
        · exact hrel y (Option.mem_def.2 hy2)

/-- Stripping yields a subset of the input. -/
theorem mem_stripBoth (p : Char → Bool) (l : List Char) (c : Char)
    (hc : c ∈ stripBoth p l) : c ∈ l := by
  unfold stripBoth at hc
  rw [List.mem_reverse] at hc
  have h1 : c ∈ (l.dropWhile p).reverse := (List.dropWhile_suffix p).subset hc
  rw [List.mem_reverse] at h1
  exact (List.dropWhile_suffix p).subset h1

/-- Stripping preserves the absence of adjacent `q`-pairs. -/
theorem chain'_stripBoth (q : Char → Bool) (p : Char → Bool) (l : List Char)
    (hch : List.Chain' (fun x y => q x = false ∨ q y = false) l) :
    List.Chain' (fun x y => q x = false ∨ q y = false) (stripBoth p l) := by
  unfold stripBoth
  have h1 : List.Chain' (fun x y => q x = false ∨ q y = false) (l.dropWhile p) :=
    hch.suffix (List.dropWhile_suffix p)
  have h2 : List.Chain' (fun x y => q x = false ∨ q y = false)
      ((l.dropWhile p).reverse) := by
    rw [List.chain'_reverse]
    exact h1.imp (fun a b hx => Or.symm hx)
  have h3 : List.Chain' (fun x y => q x = false ∨ q y = false)
      ((l.dropWhile p).reverse.dropWhile p) :=
    h2.suffix (List.dropWhile_suffix p)
  rw [List.chain'_reverse]
  exact h3.imp (fun a b hx => Or.symm hx)

/-- A dropWhile lemma in implication form. -/
theorem head_not_of_dropWhile (p : Char → Bool) (l : List Char) (h : Char)
    (hh : (l.dropWhile p).head? = some h) : p h = false := by
  have := List.head?_dropWhile_not p l
  rw [hh] at this
  exact this

/-- The first character of a stripped list fails `p`. -/
theorem head_not_of_stripBoth (p : Char → Bool) (l : List Char) (h : Char)
    (hh : (stripBoth p l).head? = some h) : p h = false := by
  unfold stripBoth at hh
  rw [List.head?_reverse] at hh
  have hne : (l.dropWhile p).reverse.dropWhile p ≠ [] := by
    intro he
    rw [he] at hh
    simp at hh
  obtain ⟨t, ht⟩ := List.dropWhile_suffix (l := (l.dropWhile p).reverse) p
  have h0 : ((l.dropWhile p).reverse).getLast? = some h := by
    rw [← ht, List.getLast?_append_of_ne_nil t hne]
    exact hh
  rw [List.getLast?_reverse] at h0
  exact head_not_of_dropWhile p l h h0

/-- The last character of a stripped list fails `p`. -/
theorem getLast_not_of_stripBoth (p : Char → Bool) (l : List Char) (h : Char)
    (hh : (stripBoth p l).getLast? = some h) : p h = false := by
  unfold stripBoth at hh
  rw [List.getLast?_reverse] at hh
  exact head_not_of_dropWhile p ((l.dropWhile p).reverse) h hh

/-- dropWhile is the identity when the head fails `p`. -/
theorem dropWhile_eq_self_of_head (p : Char → Bool) (l : List Char)
    (h : ∀ c, l.head? = some c → p c = false) : l.dropWhile p = l := by
  cases l with
  | nil => rfl
  | cons a as =>
    rw [List.dropWhile_cons, if_neg]
    simp [h a rfl]

/-- Stripping is the identity when both ends fail `p`. -/
theorem stripBoth_eq_self (p : Char → Bool) (l : List Char)
    (h1 : ∀ c, l.head? = some c → p c = false)
    (h2 : ∀ c, l.getLast? = some c → p c = false) :
    stripBoth p l = l := by
  unfold stripBoth
  rw [dropWhile_eq_self_of_head p l h1]
  rw [dropWhile_eq_self_of_head p l.reverse
    (fun c hc => h2 c (by rw [← List.head?_reverse]; exact hc))]
  exact List.reverse_reverse l

/-- Mapping a function that fixes every element is the identity. -/
theorem map_eq_self_of (f : Char → Char) (l : List Char)
    (h : ∀ c ∈ l, f c = c) : l.map f = l := by
  induction l with
  | nil => rfl
  | cons a as IH =>
    rw [List.map_cons, h a (List.mem_cons_self a as),
      IH (fun c hc => h c (List.mem_cons_of_mem _ hc))]

/-- In the lowering branch, the code point moves up by 32. -/
theorem pyToLower_toNat_of (c : Char) (h : 65 ≤ c.toNat ∧ c.toNat ≤ 90) :
    (pyToLower c).toNat = c.toNat + 32 := by
  have hv : (c.toNat + 32).isValidChar := Or.inl (by omega)
  rw [pyToLower, if_pos h, Char.ofNat, dif_pos hv]
  rfl

/-- Python's ASCII lowercasing is idempotent. -/
theorem pyToLower_idem (c : Char) : pyToLower (pyToLower c) = pyToLower c := by
  by_cases h : 65 ≤ c.toNat ∧ c.toNat ≤ 90
  · have h1 : (pyToLower c).toNat = c.toNat + 32 := pyToLower_toNat_of c h
    rw [show pyToLower (pyToLower c) = pyToLower c from by
      rw [pyToLower, if_neg (by omega)]]
  · rw [show pyToLower c = c from by rw [pyToLower, if_neg h],
      show pyToLower c = c from by rw [pyToLower, if_neg h]]

/-- Lowercasing does not leave the ASCII range. -/
theorem pyToLower_toNat_lt_128 (c : Char) (h : c.toNat < 128) :
    (pyToLower c).toNat < 128 := by
  by_cases h2 : 65 ≤ c.toNat ∧ c.toNat ≤ 90
  · rw [pyToLower_toNat_of c h2]
    omega
  · rw [pyToLower, if_neg h2]
    exact h

/-- Dash normalization never produces a dash-like character. -/
theorem normDash_not_dashLike (c : Char) : isDashLike (normDash c) = false := by
  unfold normDash
  split
  · decide
  · rename_i h
    exact Bool.eq_false_iff.2 h

/-- Dash normalization fixes non-dash-like characters. -/
theorem normDash_eq_self (c : Char) (h : isDashLike c = false) : normDash c = c := by
  unfold normDash
  rw [if_neg]
  simp [h]

/-- Lowercasing commutes with membership through dash normalization. -/
theorem pyToLower_normDash (c : Char) (h : pyToLower c = c) :
    pyToLower (normDash c) = normDash c := by
  unfold normDash
  split
  · decide
  · exact h

/-- With the ASCII model the normalization stage is the identity. -/
theorem stageNorm_asciiModel (a r : Bool) (l : List Char) :
    stageNorm asciiModel a r l = l := by
  unfold stageNorm asciiModel
  split
  · rfl
  · simp

/-- The ASCII stage only removes characters. -/
theorem mem_stageAscii (r : Bool) (l : List Char) (c : Char)
    (hc : c ∈ stageAscii r l) : c ∈ l := by
  unfold stageAscii at hc
  split at hc
  · exact (List.mem_filter.1 hc).1
  · exact hc

/-- Case stage membership: an element is an input element (uppercase
allowed) or the lowercase image of one. -/
theorem mem_stageCase (u : Bool) (l : List Char) (c : Char)
    (hc : c ∈ stageCase u l) : c ∈ l ∨ ∃ c0 ∈ l, c = pyToLower c0 := by
  unfold stageCase at hc
  split at hc
  · exact Or.inl hc
  · obtain ⟨c0, hc0, rfl⟩ := List.mem_map.1 hc
    exact Or.inr ⟨c0, hc0, rfl⟩

/-- Elements of the lowering case stage are lowercase-fixed. -/
theorem lower_of_mem_stageCase_false (l : List Char) (c : Char)
    (hc : c ∈ stageCase false l) : pyToLower c = c := by
  unfold stageCase at hc
  simp only [Bool.false_eq_true, if_false] at hc
  obtain ⟨c0, _, rfl⟩ := List.mem_map.1 hc
  exact pyToLower_idem c0

/-- Punctuation stage membership: a space introduced by whitespace
collapsing, an untouched input element, or the dash-normalized image of
an input element. -/
theorem mem_stagePunct (p : Bool) (l : List Char) (c : Char)
    (hc : c ∈ stagePunct p l) :
    c = ' ' ∨ c ∈ l ∨ ∃ c0 ∈ l, c = normDash c0 := by
  unfold stagePunct at hc
  split at hc
  · exact Or.inr (Or.inl hc)
  · rcases mem_collapseRunsAux _ _ _ _ _ hc with rfl | hc2
    · exact Or.inl rfl
    · have hc3 := (List.mem_filter.1 hc2).1
      obtain ⟨c0, hc0, rfl⟩ := List.mem_map.1 hc3
      exact Or.inr (Or.inr ⟨c0, hc0, rfl⟩)

/-- Space stage membership: a hyphen introduced by whitespace
conversion or an input element. -/
theorem mem_stageSpace (s : Bool) (l : List Char) (c : Char)
    (hc : c ∈ stageSpace s l) : c = '-' ∨ c ∈ l := by
  unfold stageSpace at hc
  split at hc
  · exact Or.inr hc
  · exact mem_collapseRunsAux _ _ _ _ _ hc

/-- Punctuation-stage membership when the stage is active: a collapsing
space, or the dash-normalized image of an input character that survived
the keep-filter. -/
theorem mem_stagePunct_false (l : List Char) (c : Char)
    (hc : c ∈ stagePunct false l) :
    c = ' ' ∨ ∃ c0 ∈ l, c = normDash c0 ∧ keepPunct c = true := by
  unfold stagePunct at hc
  simp only [Bool.false_eq_true, if_false] at hc
  rcases mem_collapseRunsAux _ _ _ _ _ hc with rfl | hc2
  · exact Or.inl rfl
  · have hk := (List.mem_filter.1 hc2).2
    obtain ⟨c0, hc0, rfl⟩ := List.mem_map.1 ((List.mem_filter.1 hc2).1)
    exact Or.inr ⟨c0, hc0, rfl, hk⟩

/-- With lowering requested, every character of the sanitized output is
lowercase-fixed. -/
theorem sanitize_lower_inv (a p s r : Bool) (x : List Char) :
    ∀ c ∈ sanitize_filename asciiModel a p s false r x, pyToLower c = c := by
  intro c hc
  unfold sanitize_filename at hc
  have hc1 := mem_stripBoth _ _ _ hc
  rcases mem_collapseRunsAux _ _ _ _ _ hc1 with rfl | hc2
  · decide
  · unfold preSanitize at hc2
    rcases mem_stageSpace _ _ _ hc2 with rfl | hc3
    · decide
    · rcases mem_stagePunct _ _ _ hc3 with rfl | hc4 | ⟨c0, hc0, rfl⟩
      · decide
      · have hc5 := mem_stageAscii _ _ _ hc4
        rw [stageNorm_asciiModel] at hc5
        exact lower_of_mem_stageCase_false _ _ hc5
      · have hc5 := mem_stageAscii _ _ _ hc0
        rw [stageNorm_asciiModel] at hc5
        exact pyToLower_normDash _ (lower_of_mem_stageCase_false _ _ hc5)

/-- With ASCII required, every character of the sanitized output is an
ASCII code point. -/
theorem sanitize_ascii_inv (a p s u : Bool) (x : List Char) :
    ∀ c ∈ sanitize_filename asciiModel a p s u true x, c.toNat < 128 := by
  intro c hc
  unfold sanitize_filename at hc
  have hc1 := mem_stripBoth _ _ _ hc
  have h128 : ∀ d ∈ stageAscii true (stageNorm asciiModel a true (stageCase u (pyStrip x))),
      d.toNat < 128 := by
    intro d hd
    unfold stageAscii at hd
    rw [if_pos rfl] at hd
    exact of_decide_eq_true (List.mem_filter.1 hd).2
  rcases mem_collapseRunsAux _ _ _ _ _ hc1 with rfl | hc2
  · decide
  · unfold preSanitize at hc2
    rcases mem_stageSpace _ _ _ hc2 with rfl | hc3
    · decide
    · rcases mem_stagePunct _ _ _ hc3 with rfl | hc4 | ⟨c0, hc0, rfl⟩
      · decide
      · exact h128 c hc4
      · have hc5 := h128 c0 hc0
        unfold normDash
        split
        · decide
        · exact hc5

/-- With the punctuation stage active, the sanitized output has no
dash-like characters. -/
theorem sanitize_nodash_inv (a s u r : Bool) (x : List Char) :
    ∀ c ∈ sanitize_filename asciiModel a false s u r x, isDashLike c = false := by
  intro c hc
  unfold sanitize_filename at hc
  have hc1 := mem_stripBoth _ _ _ hc
  rcases mem_collapseRunsAux _ _ _ _ _ hc1 with rfl | hc2
  · decide
  · unfold preSanitize at hc2
    rcases mem_stageSpace _ _ _ hc2 with rfl | hc3
    · decide
    · rcases mem_stagePunct_false _ _ hc3 with rfl | ⟨c0, _, rfl, _⟩
      · decide
      · exact normDash_not_dashLike c0

/-- With the punctuation stage active, every character of the sanitized
output passes the keep-filter. -/
theorem sanitize_keep_inv (a s u r : Bool) (x : List Char) :
    ∀ c ∈ sanitize_filename asciiModel a false s u r x, keepPunct c = true := by
  intro c hc
  unfold sanitize_filename at hc
  have hc1 := mem_stripBoth _ _ _ hc
  rcases mem_collapseRunsAux _ _ _ _ _ hc1 with rfl | hc2
  · decide
  · unfold preSanitize at hc2
    rcases mem_stageSpace _ _ _ hc2 with rfl | hc3
    · decide
    · rcases mem_stagePunct_false _ _ hc3 with rfl | ⟨c0, _, rfl, hk⟩
      · decide
      · exact hk

/-- With spaces disallowed, the sanitized output has no whitespace. -/
theorem sanitize_nows_inv (a p u r : Bool) (x : List Char) :
    ∀ c ∈ sanitize_filename asciiModel a p false u r x, pySpace c = false := by
  intro c hc
  unfold sanitize_filename at hc
  have hc1 := mem_stripBoth _ _ _ hc
  rcases mem_collapseRunsAux _ _ _ _ _ hc1 with rfl | hc2
  · decide
  · unfold preSanitize at hc2
    unfold stageSpace at hc2
    simp only [Bool.false_eq_true, if_false] at hc2
    by_cases hws : pySpace c = true
    · have := eq_r_of_mem_collapseRunsAux _ _ _ _ _ hc2 hws
      subst this
      exact absurd hws (by decide)
    · exact Bool.eq_false_iff.2 hws

/-- With the punctuation stage active, every whitespace character of the
sanitized output is a plain space. -/
theorem sanitize_ws_space_inv (a s u r : Bool) (x : List Char) :
    ∀ c ∈ sanitize_filename asciiModel a false s u r x, pySpace c = true → c = ' ' := by
  intro c hc hws
  unfold sanitize_filename at hc
  have hc1 := mem_stripBoth _ _ _ hc
  rcases mem_collapseRunsAux _ _ _ _ _ hc1 with rfl | hc2
  · exact absurd hws (by decide)
  · unfold preSanitize at hc2
    rcases mem_stageSpace _ _ _ hc2 with rfl | hc3
    · exact absurd hws (by decide)
    · unfold stagePunct at hc3
      simp only [Bool.false_eq_true, if_false] at hc3
      exact eq_r_of_mem_collapseRunsAux _ _ _ _ _ hc3 hws

/-- With the punctuation stage active and spaces allowed, the sanitized
output has no adjacent whitespace pair. -/
theorem sanitize_ws_chain_inv (a u r : Bool) (x : List Char) :
    List.Chain' (fun c1 c2 => pySpace c1 = false ∨ pySpace c2 = false)
      (sanitize_filename asciiModel a false true u r x) := by
  unfold sanitize_filename preSanitize
  apply chain'_stripBoth
  apply chain'_collapseRunsAux_preserve _ _ _ (by decide)
  unfold stageSpace
  rw [if_pos rfl]
  unfold stagePunct
  simp only [Bool.false_eq_true, if_false]
  exact chain'_collapseRunsAux _ _ _ false

/-- The sanitized output never starts with a hyphen. -/
theorem sanitize_head_not_hyphen (U : UnicodeModel) (a p s u r : Bool) (x : List Char) :
    ∀ h, (sanitize_filename U a p s u r x).head? = some h → isHyphenB h = false := by
  intro h hh
  unfold sanitize_filename at hh
  exact head_not_of_stripBoth _ _ _ hh

/-- The sanitized output never ends with a hyphen. -/
theorem sanitize_getLast_not_hyphen (U : UnicodeModel) (a p s u r : Bool) (x : List Char) :
    ∀ h, (sanitize_filename U a p s u r x).getLast? = some h → isHyphenB h = false := by
  intro h hh
  unfold sanitize_filename at hh
  exact getLast_not_of_stripBoth _ _ _ hh

/-- The sanitized output has no adjacent hyphen pair. -/
theorem sanitize_chain_hyphen (U : UnicodeModel) (a p s u r : Bool) (x : List Char) :
    List.Chain' (fun c1 c2 => isHyphenB c1 = false ∨ isHyphenB c2 = false)
      (sanitize_filename U a p s u r x) := by
  unfold sanitize_filename
  exact chain'_stripBoth _ _ _ (chain'_collapseRunsAux _ _ _ false)

/-- A second sanitizer pass is the identity on any list that is already
whitespace-stripped and satisfies the stage invariants. -/
theorem sanitize_pass2_eq (a p s u r : Bool) (y : List Char)
    (hstrip : pyStrip y = y)
    (hlow : u = false → ∀ c ∈ y, pyToLower c = c)
    (h128 : r = true → ∀ c ∈ y, c.toNat < 128)
    (hnd : p = false → ∀ c ∈ y, isDashLike c = false)
    (hkp : p = false → ∀ c ∈ y, keepPunct c = true)
    (hnw : s = false → ∀ c ∈ y, pySpace c = false)
    (hws1 : p = false → ∀ c ∈ y, pySpace c = true → c = ' ')
    (hwsch : p = false → s = true →
      List.Chain' (fun c1 c2 => pySpace c1 = false ∨ pySpace c2 = false) y)
    (hhyhead : ∀ h, y.head? = some h → isHyphenB h = false)
    (hhylast : ∀ h, y.getLast? = some h → isHyphenB h = false)
    (hhych : List.Chain' (fun c1 c2 => isHyphenB c1 = false ∨ isHyphenB c2 = false) y) :
    sanitize_filename asciiModel a p s u r y = y := by
  have hcase : stageCase u (pyStrip y) = y := by
    rw [hstrip]
    cases u with
    | true => rfl
    | false =>
      unfold stageCase
      simp only [Bool.false_eq_true, if_false]
      exact map_eq_self_of _ _ (hlow rfl)
  have hascii : stageAscii r y = y := by
    cases r with
    | false => rfl
    | true =>
      unfold stageAscii
      rw [if_pos rfl]
      exact List.filter_eq_self.2 (fun c hc => decide_eq_true (h128 rfl c hc))
  have hpunct : stagePunct p y = y := by
    cases p with
    | true => rfl
    | false =>
      unfold stagePunct
      simp only [Bool.false_eq_true, if_false]
      rw [map_eq_self_of _ _ (fun c hc => normDash_eq_self c (hnd rfl c hc))]
      rw [List.filter_eq_self.2 (hkp rfl)]
      cases s with
      | true => exact collapseRuns_eq_self _ _ _ (hws1 rfl) (hwsch rfl rfl)
      | false => exact collapseRuns_eq_self_of_no_p _ _ _ (hnw rfl)
  have hspace : stageSpace s y = y := by
    cases s with
    | true => rfl
    | false =>
      unfold stageSpace
      simp only [Bool.false_eq_true, if_false]
      exact collapseRuns_eq_self_of_no_p _ _ _ (hnw rfl)
  have hpre : preSanitize asciiModel a p s u r y = y := by
    unfold preSanitize
    rw [hcase, stageNorm_asciiModel, hascii, hpunct, hspace]
  unfold sanitize_filename
  rw [hpre]
  rw [collapseRuns_eq_self _ _ _
    (fun c _ hpc => by simpa [isHyphenB] using hpc) hhych]
  exact stripBoth_eq_self _ _ hhyhead hhylast

/-- C5: for every Unicode model, every policy and every input, the
sanitizer's output neither starts nor ends with a hyphen and contains no
two consecutive hyphens. -/
theorem sanitize_hyphen_output_invariants (U : UnicodeModel)
    (allow_accents allow_punctuation allow_spaces allow_uppercase require_ascii : Bool)
    (x : List Char) :
    (∀ h, (sanitize_filename U allow_accents allow_punctuation allow_spaces
        allow_uppercase require_ascii x).head? = some h → h ≠ '-') ∧
    (∀ h, (sanitize_filename U allow_accents allow_punctuation allow_spaces
        allow_uppercase require_ascii x).getLast? = some h → h ≠ '-') ∧
    List.Chain' (fun c1 c2 => ¬(c1 = '-' ∧ c2 = '-'))
      (sanitize_filename U allow_accents allow_punctuation allow_spaces
        allow_uppercase require_ascii x) := by
  refine ⟨?_, ?_, ?_⟩
  · intro h hh
    have := sanitize_head_not_hyphen U _ _ _ _ _ x h hh
    simpa [isHyphenB] using this
  · intro h hh
    have := sanitize_getLast_not_hyphen U _ _ _ _ _ x h hh
    simpa [isHyphenB] using this
  · refine (sanitize_chain_hyphen U _ _ _ _ _ x).imp ?_
    rintro c1 c2 hx ⟨rfl, rfl⟩
    rcases hx with h1 | h1 <;> simp [isHyphenB] at h1

/-- Witness for `sanitize_hyphen_output_invariants` at a concrete policy
and input whose output is `a-b`. -/
theorem sanitize_hyphen_output_invariants_witness :
    (sanitize_filename asciiModel true true true true false "--a--b--".data).head?
      ≠ some '-' ∧
    sanitize_filename asciiModel true true true true false "--a--b--".data
      = "a-b".data :=
  ⟨fun hh => (sanitize_hyphen_output_invariants asciiModel true true true true false
      "--a--b--".data).1 '-' hh rfl,
    by decide⟩

/-- C4 counterexample: with the default policy (everything allowed,
ASCII not required), sanitizing `- a -` yields `␣a␣` (the strip of the
edge hyphens exposes whitespace), and sanitizing again yields `a`, so
`sanitize` is not idempotent. -/
theorem sanitize_not_idempotent :
    sanitize_filename asciiModel true true true true false
        (sanitize_filename asciiModel true true true true false "- a -".data)
      ≠ sanitize_filename asciiModel true true true true false "- a -".data ∧
    sanitize_filename asciiModel true true true true false "- a -".data = " a ".data ∧
    sanitize_filename asciiModel true true true true false " a ".data = "a".data := by
  refine ⟨?_, ?_, ?_⟩ <;> decide

/-- C4 as amended: over the ASCII fragment (where the Unicode
normalizations are the identity), `sanitize` is idempotent for every
policy on every input whose sanitized form carries no leading or
trailing whitespace — the only way a second pass can differ, as the
counterexample shows, is by stripping whitespace that the first pass's
hyphen-stripping exposed at the ends. -/
theorem sanitize_idempotent_of_stripped
    (allow_accents allow_punctuation allow_spaces allow_uppercase require_ascii : Bool)
    (x : List Char)
    (h : pyStrip (sanitize_filename asciiModel allow_accents allow_punctuation
        allow_spaces allow_uppercase require_ascii x) =
      sanitize_filename asciiModel allow_accents allow_punctuation
        allow_spaces allow_uppercase require_ascii x) :
    sanitize_filename asciiModel allow_accents allow_punctuation allow_spaces
        allow_uppercase require_ascii
      (sanitize_filename asciiModel allow_accents allow_punctuation allow_spaces
        allow_uppercase require_ascii x) =
    sanitize_filename asciiModel allow_accents allow_punctuation allow_spaces
      allow_uppercase require_ascii x := by
  apply sanitize_pass2_eq _ _ _ _ _ _ h
  · intro hu
    subst hu
    exact sanitize_lower_inv _ _ _ _ x
  · intro hr
    subst hr
    exact sanitize_ascii_inv _ _ _ _ x
  · intro hp
    subst hp
    exact sanitize_nodash_inv _ _ _ _ x
  · intro hp
    subst hp
    exact sanitize_keep_inv _ _ _ _ x
  · intro hs
    subst hs
    exact sanitize_nows_inv _ _ _ _ x
  · intro hp
    subst hp
    exact sanitize_ws_space_inv _ _ _ _ x
  · intro hp hs
    subst hp
    subst hs
    exact sanitize_ws_chain_inv _ _ _ x
  · exact sanitize_head_not_hyphen _ _ _ _ _ _ x
  · exact sanitize_getLast_not_hyphen _ _ _ _ _ _ x
  · exact sanitize_chain_hyphen _ _ _ _ _ _ x

/-- Witness for `sanitize_idempotent_of_stripped` at the default policy
on `hi there`. -/
theorem sanitize_idempotent_of_stripped_witness :
    sanitize_filename asciiModel true true true true false
        (sanitize_filename asciiModel true true true true false "hi there".data)
      = sanitize_filename asciiModel true true true true false "hi there".data :=
  sanitize_idempotent_of_stripped true true true true false "hi there".data (by decide)

end RenameImageFiles
